import Mathlib

/-! uEmbedded: free-space list (`fslist.h`) and timer queue (`timer_logic.h`)

A shallow embedding of the two headers and a verification development over it.

Conventions of the embedding

* Addresses are natural numbers counted in bytes.  A `struct fslist_node*` is the byte
  address of a link record; C pointer arithmetic `p + k` on such a pointer is
  `p + SIZEOF_NODE * k`, and the pointer difference `p - q` is `(p - q) / SIZEOF_NODE`.
* A nullable pointer is an `Option Nat`, `none` being `NULL`.
* `fslist_idx_t` is `uint16_t`: a value is a `Nat`, narrowing is `% 65536`.
* `size_t` is taken to be 64 bits wide: `(size_t)-1` is `SIZE_MAX`, and `size_t`
  arithmetic is taken `% (SIZE_MAX + 1)`.
* The memory the pointers refer to is explicit: `link a` is the link record read
  through the node pointer `a`, and `info a` is the timer record read through the
  payload pointer `a`.
-/

/-! ## fslist.h -/

/-- The constant `FSLIST_NODEIDX_NONE = (fslist_idx_t) -1`. -/
def FSLIST_NODEIDX_NONE : Nat := 65535

/-- Size `sizeof(struct fslist_node)`: two `uint16_t` members. -/
def SIZEOF_NODE : Nat := 4

/-- The value `(size_t) -1` for a 64-bit `size_t`. -/
def SIZE_MAX : Nat := 18446744073709551615

/-- The `struct fslist_node`. -/
structure fslist_node where
  prev : Nat
  next : Nat
deriving DecidableEq

/-- The `struct fslist`; the pointer members `buff`, `get` and `data` are byte addresses. -/
structure fslist where
  head : Nat
  tail : Nat
  nodeInactive : Nat
  capacity : Nat
  size : Nat
  elemSize : Nat
  buff : Nat
  get : Nat
  data : Nat
deriving DecidableEq

/-- Function `fslist_node_in_range`: `n < s->get + s->capacity && s->get < n`. -/
def fslist_node_in_range (s : fslist) (n : Nat) : Bool :=
  decide (n < s.get + SIZEOF_NODE * s.capacity) && decide (s.get < n)

/-- Function `fslist_idx`: `NONE` when the node is not in range, else `n - s->get` narrowed to
`fslist_idx_t`. -/
def fslist_idx (s : fslist) (n : Nat) : Nat :=
  if !fslist_node_in_range s n then FSLIST_NODEIDX_NONE
  else ((n - s.get) / SIZEOF_NODE) % 65536

/-- Function `fslist_next`: `n->next != FSLIST_NODEIDX_NONE ? s->get + n->next : NULL`. -/
def fslist_next (link : Nat → fslist_node) (s : fslist) (n : Nat) : Option Nat :=
  if (link n).next ≠ FSLIST_NODEIDX_NONE then some (s.get + SIZEOF_NODE * (link n).next)
  else none

/-- Function `fslist_prev`: `n->prev != FSLIST_NODEIDX_NONE ? s->get + n->prev : NULL`. -/
def fslist_prev (link : Nat → fslist_node) (s : fslist) (n : Nat) : Option Nat :=
  if (link n).prev ≠ FSLIST_NODEIDX_NONE then some (s.get + SIZEOF_NODE * (link n).prev)
  else none

/-- Function `fslist_data`: `s->data + ( fslist_idx( s, n ) * s->elemSize )`, the product being
`size_t` arithmetic. -/
def fslist_data (s : fslist) (n : Nat) : Nat :=
  s.data + (fslist_idx s n * s.elemSize) % (SIZE_MAX + 1)

/-- The `for` loop of `fslist_forEach`, `n` being the loop variable.  The result is the
list of arguments the callback was invoked on, in order; `none` when `fuel` iterations
did not reach `n == NULL`. -/
def fslist_forEach_loop (link : Nat → fslist_node) (s : fslist) :
    Nat → Option Nat → Option (List Nat)
  | _, none => some []
  | 0, some _ => none
  | fuel + 1, some n =>
    (fslist_forEach_loop link s fuel (fslist_next link s n)).map
      (fun rest => fslist_data s n :: rest)

/-- Function `fslist_forEach`: nothing when `size == 0`, else the loop from `s->get + s->head`. -/
def fslist_forEach (fuel : Nat) (link : Nat → fslist_node) (s : fslist) :
    Option (List Nat) :=
  if s.size = 0 then some []
  else fslist_forEach_loop link s fuel (some (s.get + SIZEOF_NODE * s.head))

/-! ## timer_logic.h -/

/-- The `struct timer_logic`. -/
structure timer_logic where
  nodes : fslist
  idGen : Nat
deriving DecidableEq

/-- The `struct timer_logic_info`; `callback` and `callbackObj` are addresses. -/
structure timer_logic_info where
  timerId : Nat
  triggerTime : Nat
  callback : Nat
  callbackObj : Nat
deriving DecidableEq

/-- The `struct timer_handle`. -/
structure timer_handle where
  n : Nat
  timerId : Nat
deriving DecidableEq

/-- Function `timer_nextTrigger`. -/
def timer_nextTrigger (info : Nat → timer_logic_info) (s : timer_logic) : Nat :=
  if s.nodes.size = 0 then SIZE_MAX
  else (info (fslist_data s.nodes (s.nodes.get + SIZEOF_NODE * s.nodes.head))).triggerTime

/-- Function `timer_browse`.  The result is the pointer to the record, `none` being `NULL`.
`struct fslist_node` as declared has no member `isValid`: the value read by
`h.n->isValid` is the parameter `isValid`, applied to the node pointer. -/
def timer_browse (isValid : Nat → Bool) (info : Nat → timer_logic_info)
    (s : timer_logic) (h : timer_handle) : Option Nat :=
  if isValid h.n then
    if (info (fslist_data s.nodes h.n)).timerId = h.timerId then
      some (fslist_data s.nodes h.n)
    else none
  else none

/-- Function `timer_isActive`: `timer_browse( s, h ) != NULL`. -/
def timer_isActive (isValid : Nat → Bool) (info : Nat → timer_logic_info)
    (s : timer_logic) (h : timer_handle) : Bool :=
  (timer_browse isValid info s h).isSome

/-! ## Operations declared in the headers whose bodies are not part of the sources

`fslist_init`, `fslist_insert`, `fslist_erase`, `timer_init`, `timer_add` and
`timer_update` are declared in the headers only.  They are modelled from the
specification of the repository; where they convert a node to its index or to its
payload they call the conversions of the sources, `fslist_idx` and `fslist_data`. -/

/-- Address of the link record of slot `i`: `s->get + i`. -/
def node_at (s : fslist) (i : Nat) : Nat := s.get + SIZEOF_NODE * i

/-- Address `data + i * elemSize`: the payload slot of slot `i` in the data model of the
pool.  No operation computes an address with it: the operations go through
`fslist_data`, which agrees with it on every slot but slot 0. -/
def slot_data (s : fslist) (i : Nat) : Nat := s.data + i * s.elemSize

/-- Store of one link record: `*a = v`. -/
def set_link (link : Nat → fslist_node) (a : Nat) (v : fslist_node) : Nat → fslist_node :=
  fun x => if x = a then v else link x

/-- Store of one timer record: `*a = v`. -/
def set_info (info : Nat → timer_logic_info) (a : Nat) (v : timer_logic_info) :
    Nat → timer_logic_info :=
  fun x => if x = a then v else info x

/-- Modelled from the spec: `fslist_init` (declared only).  `elemSize` is read from the
object; the capacity is the largest number of slots (one link record and one payload
each) that fit the buffer, at most 65535; the link records are placed at the start of
the buffer and the payloads after them; all slots are chained into the free chain in
index order; the active chain is empty.  The result is the new object, the new link
memory and the returned capacity. -/
def fslist_init (s : fslist) (link : Nat → fslist_node) (buff buffSize : Nat) :
    fslist × (Nat → fslist_node) × Nat :=
  let cap := min (buffSize / (SIZEOF_NODE + s.elemSize)) 65535
  ({ head := FSLIST_NODEIDX_NONE
     tail := FSLIST_NODEIDX_NONE
     nodeInactive := if cap = 0 then FSLIST_NODEIDX_NONE else 0
     capacity := cap
     size := 0
     elemSize := s.elemSize
     buff := buff
     get := buff
     data := buff + SIZEOF_NODE * cap },
   (fun a =>
      if buff ≤ a ∧ a < buff + SIZEOF_NODE * cap ∧ (a - buff) % SIZEOF_NODE = 0 then
        { link a with
          next := if (a - buff) / SIZEOF_NODE + 1 < cap then (a - buff) / SIZEOF_NODE + 1
                  else FSLIST_NODEIDX_NONE }
      else link a),
   cap)

/-- Modelled from the spec: `fslist_insert` (declared only).  With an empty free chain
nothing changes and no node is returned.  Otherwise the first free slot is taken off
the free chain and spliced into the active chain immediately before `n`, or at the
tail when `n` is `NULL`; `head`, `tail` and `size` are updated and the new node is
returned.  The index stored as the `next` link of the new node is `fslist_idx( s, n )`. -/
def fslist_insert (s : fslist) (link : Nat → fslist_node) (n : Option Nat) :
    fslist × (Nat → fslist_node) × Option Nat :=
  if s.nodeInactive = FSLIST_NODEIDX_NONE then (s, link, none)
  else
    let i := s.nodeInactive
    let a := node_at s i
    let free := (link a).next
    match n with
    | none =>
      let p := s.tail
      let link1 := set_link link a { prev := p, next := FSLIST_NODEIDX_NONE }
      let link2 :=
        if p = FSLIST_NODEIDX_NONE then link1
        else set_link link1 (node_at s p) { link1 (node_at s p) with next := i }
      ({ s with
         head := if p = FSLIST_NODEIDX_NONE then i else s.head
         tail := i
         nodeInactive := free
         size := s.size + 1 }, link2, some a)
    | some b =>
      let p := (link b).prev
      let link1 := set_link link a { prev := p, next := fslist_idx s b }
      let link2 := set_link link1 b { link1 b with prev := i }
      let link3 :=
        if p = FSLIST_NODEIDX_NONE then link2
        else set_link link2 (node_at s p) { link2 (node_at s p) with next := i }
      ({ s with
         head := if p = FSLIST_NODEIDX_NONE then i else s.head
         nodeInactive := free
         size := s.size + 1 }, link3, some a)

/-- Modelled from the spec: `fslist_erase` (declared only).  The node is spliced out of
the active chain (neighbour links, `head`, `tail` and `size` fixed) and its slot,
`fslist_idx( s, n )`, is pushed onto the front of the free chain; the next active node
is returned. -/
def fslist_erase (s : fslist) (link : Nat → fslist_node) (n : Nat) :
    fslist × (Nat → fslist_node) × Option Nat :=
  let p := (link n).prev
  let x := (link n).next
  let link1 :=
    if p = FSLIST_NODEIDX_NONE then link
    else set_link link (node_at s p) { link (node_at s p) with next := x }
  let link2 :=
    if x = FSLIST_NODEIDX_NONE then link1
    else set_link link1 (node_at s x) { link1 (node_at s x) with prev := p }
  let link3 := set_link link2 n { link2 n with next := s.nodeInactive }
  ({ s with
     head := if p = FSLIST_NODEIDX_NONE then x else s.head
     tail := if x = FSLIST_NODEIDX_NONE then p else s.tail
     nodeInactive := fslist_idx s n
     size := s.size - 1 }, link3,
   if x = FSLIST_NODEIDX_NONE then none else some (node_at s x))

/-- The state a timer queue operation runs on: the `timer_logic` object, the link
records and the timer records. -/
structure timer_state where
  s : timer_logic
  link : Nat → fslist_node
  info : Nat → timer_logic_info

/-- Size `sizeof(timer_info_t)`: four members of 8 bytes. -/
def SIZEOF_TIMER_INFO : Nat := 32

/-- Function `timer_erase` (its body is in `timer_logic.h`): `fslist_erase( &s->nodes, h.n )`
when `timer_isActive( s, h )`, nothing otherwise. -/
def timer_erase (isValid : Nat → Bool) (st : timer_state) (h : timer_handle) :
    timer_state :=
  if timer_isActive isValid st.info st.s h then
    { st with
      s := { st.s with nodes := (fslist_erase st.s.nodes st.link h.n).1 }
      link := (fslist_erase st.s.nodes st.link h.n).2.1 }
  else st

/-- Modelled from the spec: `timer_init` (declared only).  Initialises the node pool
with element size equal to one timer record and resets the id generator; returns the
capacity. -/
def timer_init (st : timer_state) (buff buffSize : Nat) : timer_state × Nat :=
  let r := fslist_init { st.s.nodes with elemSize := SIZEOF_TIMER_INFO } st.link buff buffSize
  ({ s := { nodes := r.1, idGen := 0 }, link := r.2.1, info := st.info }, r.2.2)

/-- Modelled from the spec: the scan of `timer_add` over the active chain, from slot
`i`, for the first node whose stored `triggerTime` is strictly greater than `t`;
`none` when no node qualifies.  The record of a node is read through `fslist_data`. -/
def timer_add_scan (link : Nat → fslist_node) (info : Nat → timer_logic_info)
    (s : fslist) (t : Nat) : Nat → Nat → Option Nat
  | 0, _ => none
  | fuel + 1, i =>
    if i = FSLIST_NODEIDX_NONE then none
    else if t < (info (fslist_data s (node_at s i))).triggerTime then some (node_at s i)
    else timer_add_scan link info s t fuel (link (node_at s i)).next

/-- Modelled from the spec: `timer_add` (declared only).  Generates the next id, scans
the active chain (at most `size` nodes) for the first node with a strictly greater
trigger time, inserts before it through `fslist_insert` (at the tail when there is
none), writes the record through `fslist_data` of the acquired node and returns the
handle; `none` is the exhaustion signal. -/
def timer_add (st : timer_state) (whenToTrigger callback callbackObj : Nat) :
    timer_state × Option timer_handle :=
  let id := (st.s.idGen + 1) % (SIZE_MAX + 1)
  let r := fslist_insert st.s.nodes st.link
    (timer_add_scan st.link st.info st.s.nodes whenToTrigger st.s.nodes.size st.s.nodes.head)
  match r.2.2 with
  | none => ({ st with s := { st.s with idGen := id } }, none)
  | some a =>
    ({ s := { nodes := r.1, idGen := id }
       link := r.2.1
       info := set_info st.info (fslist_data r.1 a)
         { timerId := id, triggerTime := whenToTrigger, callback := callback,
           callbackObj := callbackObj } },
     some { n := a, timerId := id })

/-- Modelled from the spec: the loop of `timer_update`.  While the chain is non-empty
and the head record, read through `fslist_data` as in `timer_nextTrigger`, is due, its
callback is invoked and the head node erased.  The second component lists the
invocations `(callback, callbackObj)` in order; a callback is an external collaborator
and is taken not to touch the queue. -/
def timer_update_loop : Nat → timer_state → Nat → timer_state × List (Nat × Nat)
  | 0, st, _ => (st, [])
  | fuel + 1, st, curTime =>
    if st.s.nodes.size = 0 then (st, [])
    else
      let r := st.info (fslist_data st.s.nodes (node_at st.s.nodes st.s.nodes.head))
      if r.triggerTime ≤ curTime then
        let e := fslist_erase st.s.nodes st.link (node_at st.s.nodes st.s.nodes.head)
        let rest := timer_update_loop fuel
          { st with s := { st.s with nodes := e.1 }, link := e.2.1 } curTime
        (rest.1, (r.callback, r.callbackObj) :: rest.2)
      else (st, [])

/-- Modelled from the spec: `timer_update` (declared only); at most `size` timers can
fire. -/
def timer_update (st : timer_state) (curTime : Nat) : timer_state × List (Nat × Nat) :=
  timer_update_loop st.s.nodes.size st curTime

/-- Modelled from the spec: whether the node at address `n` is presently active, read
off the chain topology (reachable from `head` by following `next`); `fuel` bounds the
walk, `i` is the slot the walk is at. -/
def node_active_from (link : Nat → fslist_node) (s : fslist) (n : Nat) : Nat → Nat → Bool
  | 0, _ => false
  | fuel + 1, i =>
    if i = FSLIST_NODEIDX_NONE then false
    else if node_at s i = n then true
    else node_active_from link s n fuel (link (node_at s i)).next

/-- Modelled from the spec: the value of `isValid` for the node at address `n`: the node
is on the active chain. -/
def node_active (link : Nat → fslist_node) (s : fslist) (n : Nat) : Bool :=
  node_active_from link s n s.size s.head

/-- The active chain read from slot `a` by following `next` until `NONE`. -/
def chain_from (link : Nat → fslist_node) (s : fslist) : Nat → List Nat → Prop
  | a, [] => a = FSLIST_NODEIDX_NONE
  | a, i :: L =>
    a = i ∧ i ≠ FSLIST_NODEIDX_NONE ∧ chain_from link s (link (node_at s i)).next L

/-- The list `L` is the active chain of the pool: the slots met from `head` by
following `next` until `NONE`. -/
def active_chain (link : Nat → fslist_node) (s : fslist) (L : List Nat) : Prop :=
  chain_from link s s.head L

/-- Trigger time of the record of slot `i`, read as the repository reads it: through
`fslist_data` of the node of the slot. -/
def trigger_of (st : timer_state) (i : Nat) : Nat :=
  (st.info (fslist_data st.s.nodes (node_at st.s.nodes i))).triggerTime

/-! ## Example states -/

/-- A pool of four 32-byte slots laid out at address 1000 (link records at 1000,
payloads at 1016) whose only active node is slot 0; slots 1, 2, 3 form the free
chain. -/
def pool_one : fslist :=
  { head := 0, tail := 0, nodeInactive := 1, capacity := 4, size := 1, elemSize := 32,
    buff := 1000, get := 1000, data := 1016 }

/-- Link records of `pool_one`. -/
def link_one : Nat → fslist_node := fun a =>
  if a = 1000 then { prev := 65535, next := 65535 }
  else if a = 1004 then { prev := 65535, next := 2 }
  else if a = 1008 then { prev := 65535, next := 3 }
  else { prev := 65535, next := 65535 }

/-- Timer records of `pool_one`: slot 0 (address 1016) holds timer 1, due at 50. -/
def info_one : Nat → timer_logic_info := fun a =>
  if a = 1016 then { timerId := 1, triggerTime := 50, callback := 0, callbackObj := 0 }
  else { timerId := 0, triggerTime := 0, callback := 0, callbackObj := 0 }

/-- The timer queue over `pool_one`. -/
def state_one : timer_state :=
  { s := { nodes := pool_one, idGen := 1 }, link := link_one, info := info_one }

/-- A pool of four 32-byte slots whose only active node is slot 1. -/
def pool_max : fslist :=
  { head := 1, tail := 1, nodeInactive := 0, capacity := 4, size := 1, elemSize := 32,
    buff := 1000, get := 1000, data := 1016 }

/-- Link records of `pool_max`. -/
def link_max : Nat → fslist_node := fun a =>
  if a = 1000 then { prev := 65535, next := 2 }
  else if a = 1008 then { prev := 65535, next := 3 }
  else { prev := 65535, next := 65535 }

/-- Timer records of `pool_max`: slot 1 (address 1048) holds timer 2, due at
`SIZE_MAX`. -/
def info_max : Nat → timer_logic_info := fun a =>
  if a = 1048 then
    { timerId := 2, triggerTime := 18446744073709551615, callback := 0, callbackObj := 0 }
  else { timerId := 0, triggerTime := 0, callback := 0, callbackObj := 0 }

/-- A full pool of two 32-byte slots laid out at address 1000 (link records at 1000,
payloads at 1008): the active chain is slot 1 then slot 0, the free chain is empty. -/
def pool_full : fslist :=
  { head := 1, tail := 0, nodeInactive := 65535, capacity := 2, size := 2, elemSize := 32,
    buff := 1000, get := 1000, data := 1008 }

/-- Link records of `pool_full`. -/
def link_full : Nat → fslist_node := fun a =>
  if a = 1000 then { prev := 1, next := 65535 }
  else if a = 1004 then { prev := 65535, next := 0 }
  else { prev := 65535, next := 65535 }

/-- Timer records of `pool_full`: slot 1 (address 1040) holds timer 2, due at 50, and
slot 0 (address 1008) holds timer 1, due at 100. -/
def info_full : Nat → timer_logic_info := fun a =>
  if a = 1040 then { timerId := 2, triggerTime := 50, callback := 7, callbackObj := 8 }
  else if a = 1008 then { timerId := 1, triggerTime := 100, callback := 7, callbackObj := 9 }
  else { timerId := 0, triggerTime := 0, callback := 0, callbackObj := 0 }

/-- The timer queue over `pool_full`. -/
def state_full : timer_state :=
  { s := { nodes := pool_full, idGen := 2 }, link := link_full, info := info_full }

/-! ## Well-formedness of a pool -/

/-- The `next` link of slot `i`, the cell of the pseudo slot `NONE` being `head`. -/
def ext_next (s : fslist) (link : Nat → fslist_node) (i : Nat) : Nat :=
  if i = FSLIST_NODEIDX_NONE then s.head else (link (node_at s i)).next

/-- The `prev` link of slot `i`, the cell of the pseudo slot `NONE` being `tail`. -/
def ext_prev (s : fslist) (link : Nat → fslist_node) (i : Nat) : Nat :=
  if i = FSLIST_NODEIDX_NONE then s.tail else (link (node_at s i)).prev

/-- Following the link function `f` from the index `a` visits exactly the list `L` and
then arrives at `z`. -/
def ptr_chain (f : Nat → Nat) : Nat → List Nat → Nat → Prop
  | a, [], z => a = z
  | a, i :: L, z => a = i ∧ ptr_chain f (f i) L z

/-- Well-formed pool with active chain `L` and free chain `F`: the two chains are
disjoint and duplicate free and together hold every slot index, the active chain is
linked forwards from `head` and backwards from `tail`, the free chain is linked from
`nodeInactive`, and `size` is the length of the active chain. -/
structure pool_wf (s : fslist) (link : Nat → fslist_node) (L F : List Nat) : Prop where
  cap : s.capacity ≤ 65535
  bound : ∀ i ∈ L ++ F, i < s.capacity
  nodup : (L ++ F).Nodup
  count : L.length + F.length = s.capacity
  fwd : ptr_chain (ext_next s link) s.head L FSLIST_NODEIDX_NONE
  bwd : ptr_chain (ext_prev s link) s.tail L.reverse FSLIST_NODEIDX_NONE
  free : ptr_chain (ext_next s link) s.nodeInactive F FSLIST_NODEIDX_NONE
  sz : s.size = L.length

/-- A timer queue with no operation applied yet: every field and memory cell zero. -/
def state_blank : timer_state :=
  { s := { nodes := { head := 0, tail := 0, nodeInactive := 0, capacity := 0, size := 0,
                      elemSize := 0, buff := 0, get := 0, data := 0 },
           idGen := 0 }
    link := fun _ => { prev := 0, next := 0 }
    info := fun _ => { timerId := 0, triggerTime := 0, callback := 0, callbackObj := 0 } }

/-- The queue after `timer_init` over a 200-byte buffer at address 1000 followed by
`timer_add` at times 50, 100 and 75: no insertion is made before the node of slot 0. -/
def state_order : timer_state :=
  (timer_add (timer_add (timer_add (timer_init state_blank 1000 200).1 50 1 50).1 100 1 100).1
    75 1 75).1

/-! # Theorems -/

/-! ## Index and address conversion -/

theorem not_in_range_at_get (s : fslist) : fslist_node_in_range s s.get = false := by
  simp [fslist_node_in_range]

theorem in_range_iff (s : fslist) (n : Nat) :
    fslist_node_in_range s n = true ↔ s.get < n ∧ n < s.get + SIZEOF_NODE * s.capacity := by
  simp [fslist_node_in_range, and_comm]

/-- On every slot but slot 0 the index of the link record of slot `i` is `i`. -/
theorem fslist_idx_node_at (s : fslist) (i : Nat) (h0 : 0 < i) (hi : i < s.capacity)
    (hcap : s.capacity ≤ 65535) : fslist_idx s (node_at s i) = i := by
  have hr : fslist_node_in_range s (node_at s i) = true := by
    rw [in_range_iff]; simp only [node_at, SIZEOF_NODE]; omega
  unfold fslist_idx
  rw [hr]
  simp only [Bool.not_true, Bool.false_eq_true, if_false, node_at, SIZEOF_NODE]
  omega

/-- C3 (code defect): the link record of slot 0 is at `get + 0`, and `fslist_idx`
answers `NONE` (65535) for it, in the example pool and in every pool, where the claim
says 0. -/
theorem fslist_idx_slot_zero :
    fslist_idx pool_one (pool_one.get + SIZEOF_NODE * 0) = 65535 ∧
    0 < pool_one.capacity ∧
    ∀ s : fslist, fslist_idx s (s.get + SIZEOF_NODE * 0) = FSLIST_NODEIDX_NONE := by
  refine ⟨by decide, by decide, fun s => ?_⟩
  simp [fslist_idx, not_in_range_at_get]

/-- C4 (code defect): for the link record of slot 0 of the example pool `fslist_data`
answers `data + 65535 * elemSize = 2098136`, where the claim says
`data + 0 * elemSize = 1016`. -/
theorem fslist_data_slot_zero :
    fslist_data pool_one (pool_one.get + SIZEOF_NODE * 0) = 2098136 ∧
    pool_one.data + 0 * pool_one.elemSize = 1016 := by
  decide

/-- C5: for a node address before `get`, or at or beyond `get + capacity`, `fslist_idx`
returns `NONE`. -/
theorem fslist_idx_out_of_range (s : fslist) (n : Nat)
    (h : n < s.get ∨ s.get + SIZEOF_NODE * s.capacity ≤ n) :
    fslist_idx s n = FSLIST_NODEIDX_NONE := by
  have hr : fslist_node_in_range s n = false := by
    cases hb : fslist_node_in_range s n with
    | false => rfl
    | true => rw [in_range_iff] at hb; omega
  simp [fslist_idx, hr]

/-- Instance of C5: the address one past the last slot of the example pool. -/
theorem fslist_idx_out_of_range_witness :
    (1016 < pool_one.get ∨ pool_one.get + SIZEOF_NODE * pool_one.capacity ≤ 1016) ∧
    fslist_idx pool_one 1016 = FSLIST_NODEIDX_NONE :=
  ⟨Or.inr (by decide), fslist_idx_out_of_range pool_one 1016 (Or.inr (by decide))⟩

/-- C9: with `capacity ≤ 65535`, a value of `fslist_idx` other than `NONE` is below
`capacity`, and no slot index below `capacity` is `NONE`. -/
theorem fslist_idx_none_not_slot (s : fslist) (n : Nat) (hcap : s.capacity ≤ 65535) :
    (fslist_idx s n ≠ FSLIST_NODEIDX_NONE → fslist_idx s n < s.capacity) ∧
    ∀ i, i < s.capacity → i ≠ FSLIST_NODEIDX_NONE := by
  constructor
  · intro hne
    cases hb : fslist_node_in_range s n with
    | false => simp [fslist_idx, hb] at hne
    | true =>
      have hr := (in_range_iff s n).1 hb
      simp only [fslist_idx, hb, Bool.not_true, Bool.false_eq_true, if_false,
        SIZEOF_NODE] at hr ⊢
      omega
  · intro i hi
    simp only [FSLIST_NODEIDX_NONE]; omega

/-- Instance of C9: the example pool and the link record of its slot 2. -/
theorem fslist_idx_none_not_slot_witness :
    pool_one.capacity ≤ 65535 ∧
    (fslist_idx pool_one 1008 ≠ FSLIST_NODEIDX_NONE →
      fslist_idx pool_one 1008 < pool_one.capacity) ∧
    ∀ i, i < pool_one.capacity → i ≠ FSLIST_NODEIDX_NONE :=
  ⟨by decide, fslist_idx_none_not_slot pool_one 1008 (by decide)⟩

/-! ## Peek, browse, erase -/

/-- With the head at slot 0 and a pending timer, `timer_nextTrigger` reads the record at
`data + 65535 * elemSize`. -/
theorem timer_nextTrigger_head_zero (info : Nat → timer_logic_info) (s : timer_logic)
    (hh : s.nodes.head = 0) (hs : s.nodes.size ≠ 0) :
    timer_nextTrigger info s =
      (info (s.nodes.data + (65535 * s.nodes.elemSize) % (SIZE_MAX + 1))).triggerTime := by
  simp [timer_nextTrigger, hs, hh, fslist_data, fslist_idx, not_in_range_at_get,
    FSLIST_NODEIDX_NONE]

/-- The example pool is well formed, with active chain `[0]` and free chain
`[1, 2, 3]`. -/
theorem pool_one_wf : pool_wf pool_one link_one [0] [1, 2, 3] where
  cap := by decide
  bound := by decide
  nodup := by decide
  count := rfl
  fwd := by
    simp [ptr_chain, ext_next, pool_one, link_one, node_at, FSLIST_NODEIDX_NONE, SIZEOF_NODE]
  bwd := by
    simp [ptr_chain, ext_prev, pool_one, link_one, node_at, FSLIST_NODEIDX_NONE, SIZEOF_NODE]
  free := by
    simp [ptr_chain, ext_next, pool_one, link_one, node_at, FSLIST_NODEIDX_NONE, SIZEOF_NODE]
  sz := rfl

/-- C1 (code defect): the example queue is well formed with active chain `[0]`, and the
record in the payload slot of the head (slot 0) is due at 50, yet `timer_nextTrigger`
returns what is stored at address `data + 65535 * elemSize = 2098136`, here 0. -/
theorem timer_nextTrigger_slot_zero :
    pool_wf pool_one link_one [0] [1, 2, 3] ∧
    active_chain link_one pool_one [0] ∧ pool_one.size = 1 ∧
    (info_one (pool_one.data + pool_one.head * pool_one.elemSize)).triggerTime = 50 ∧
    timer_nextTrigger info_one { nodes := pool_one, idGen := 1 } = 0 ∧
    timer_nextTrigger info_one { nodes := pool_one, idGen := 1 } =
      (info_one 2098136).triggerTime := by
  refine ⟨pool_one_wf, ?_, by decide, by decide, by decide, by decide⟩
  simp [active_chain, chain_from, pool_one, link_one, node_at, FSLIST_NODEIDX_NONE,
    SIZEOF_NODE]

/-- C2 (code defect): in the example queue the node of slot 0 is active and its own
payload slot stores `timerId = 1`, yet `timer_browse` on the handle `(get + 0, 1)`
returns `NULL`: it compares the id with the record at `data + 65535 * elemSize`. -/
theorem timer_browse_slot_zero :
    pool_wf pool_one link_one [0] [1, 2, 3] ∧
    node_active link_one pool_one (pool_one.get + SIZEOF_NODE * 0) = true ∧
    (info_one (slot_data pool_one 0)).timerId = 1 ∧
    timer_browse (node_active link_one pool_one) info_one
      { nodes := pool_one, idGen := 1 }
      { n := pool_one.get + SIZEOF_NODE * 0, timerId := 1 } = none :=
  ⟨pool_one_wf, by decide, by decide, by decide⟩

/-- The second example pool is well formed, with active chain `[1]` and free chain
`[0, 2, 3]`. -/
theorem pool_max_wf : pool_wf pool_max link_max [1] [0, 2, 3] where
  cap := by decide
  bound := by decide
  nodup := by decide
  count := rfl
  fwd := by
    simp [ptr_chain, ext_next, pool_max, link_max, node_at, FSLIST_NODEIDX_NONE, SIZEOF_NODE]
  bwd := by
    simp [ptr_chain, ext_prev, pool_max, link_max, node_at, FSLIST_NODEIDX_NONE, SIZEOF_NODE]
  free := by
    simp [ptr_chain, ext_next, pool_max, link_max, node_at, FSLIST_NODEIDX_NONE, SIZEOF_NODE]
  sz := rfl

/-- C6 (refuted as stated): a well-formed queue with one pending timer, stored in
slot 1 and due at `(size_t)-1`, makes `timer_nextTrigger` return the empty sentinel
although `size = 1`. -/
theorem timer_nextTrigger_sentinel_pending :
    pool_wf pool_max link_max [1] [0, 2, 3] ∧
    active_chain link_max pool_max [1] ∧
    (info_max (slot_data pool_max 1)).triggerTime = SIZE_MAX ∧
    ¬ (timer_nextTrigger info_max { nodes := pool_max, idGen := 2 } = SIZE_MAX ↔
        pool_max.size = 0) := by
  refine ⟨pool_max_wf, ?_, by decide, by decide⟩
  simp [active_chain, chain_from, pool_max, link_max, node_at, FSLIST_NODEIDX_NONE,
    SIZEOF_NODE]

/-- C7: when `timer_isActive` is false, `timer_erase` leaves the whole state (the pool
object, every link record and every timer record) unchanged. -/
theorem timer_erase_inactive (isValid : Nat → Bool) (st : timer_state) (h : timer_handle)
    (hin : timer_isActive isValid st.info st.s h = false) :
    timer_erase isValid st h = st := by
  simp [timer_erase, hin]

/-- Instance of C7: in the example queue the handle of the free slot 1 is not active, and
erasing it changes nothing. -/
theorem timer_erase_inactive_witness :
    timer_isActive (node_active link_one pool_one) state_one.info state_one.s
      { n := 1004, timerId := 1 } = false ∧
    timer_erase (node_active link_one pool_one) state_one { n := 1004, timerId := 1 }
      = state_one :=
  ⟨by decide, timer_erase_inactive _ state_one _ (by decide)⟩

/-- C8 (code defect): the active chain of the example pool is `[0]`, and
`fslist_forEach` invokes the callback on `data + 65535 * elemSize = 2098136`, where the
claim says `data + 0 * elemSize = 1016`. -/
theorem fslist_forEach_slot_zero :
    pool_wf pool_one link_one [0] [1, 2, 3] ∧
    active_chain link_one pool_one [0] ∧
    fslist_forEach 1 link_one pool_one = some [2098136] ∧
    pool_one.data + 0 * pool_one.elemSize = 1016 := by
  refine ⟨pool_one_wf, ?_, by decide, by decide⟩
  simp [active_chain, chain_from, pool_one, link_one, node_at, FSLIST_NODEIDX_NONE,
    SIZEOF_NODE]

/-! ## What the conversions and the traversal do on the other slots -/

/-- On every slot but slot 0, and as long as the product fits `size_t`, `fslist_data`
of the link record of slot `i` is the payload address of slot `i`. -/
theorem fslist_data_node_at (s : fslist) (i : Nat) (h0 : 0 < i) (hi : i < s.capacity)
    (hcap : s.capacity ≤ 65535) (hfit : i * s.elemSize ≤ SIZE_MAX) :
    fslist_data s (node_at s i) = slot_data s i := by
  simp only [fslist_data, slot_data, fslist_idx_node_at s i h0 hi hcap]
  rw [Nat.mod_eq_of_lt (by omega)]

theorem fslist_forEach_loop_chain (link : Nat → fslist_node) (s : fslist) :
    ∀ (L : List Nat) (a : Nat), chain_from link s a L →
      fslist_forEach_loop link s L.length
          (if a = FSLIST_NODEIDX_NONE then none else some (node_at s a)) =
        some (L.map (fun i => fslist_data s (node_at s i)))
  | [], a, h => by
    have ha : a = FSLIST_NODEIDX_NONE := h
    simp [ha, fslist_forEach_loop]
  | i :: L, a, h => by
    obtain ⟨h1, h2, h3⟩ := h
    subst h1
    have ih := fslist_forEach_loop_chain link s L _ h3
    have hnext : fslist_next link s (node_at s a) =
        if (link (node_at s a)).next = FSLIST_NODEIDX_NONE then none
        else some (node_at s (link (node_at s a)).next) := by
      simp only [fslist_next, node_at]
      split_ifs <;> simp_all
    simp only [h2, if_false, List.length_cons, fslist_forEach_loop, hnext, ih, List.map_cons,
      Option.map_some']

/-- On a pool whose active chain is `L` and whose `size` is the length of `L`,
`fslist_forEach` ends within `size` iterations and invokes the callback once per node
of `L`, in chain order, on what `fslist_data` answers for the node. -/
theorem fslist_forEach_chain (link : Nat → fslist_node) (s : fslist) (L : List Nat)
    (h : active_chain link s L) (hs : s.size = L.length) :
    fslist_forEach s.size link s = some (L.map (fun i => fslist_data s (node_at s i))) := by
  cases L with
  | nil => simp [fslist_forEach, hs]
  | cons i L =>
    have hne : s.head ≠ FSLIST_NODEIDX_NONE := by
      have := h.1; have := h.2.1; omega
    have hl := fslist_forEach_loop_chain link s (i :: L) s.head h
    simp only [hne, if_false] at hl
    have hsz : s.size ≠ 0 := by rw [hs]; simp
    simp only [fslist_forEach, hsz, if_false]
    rw [hs]
    exact hl

/-! ## Linked chains -/

theorem ptr_chain_congr {f g : Nat → Nat} :
    ∀ (L : List Nat) (a z : Nat), (∀ x ∈ L, f x = g x) →
      ptr_chain f a L z → ptr_chain g a L z
  | [], _, _, _, h => h
  | i :: L, a, z, hfg, h => by
    obtain ⟨h1, h2⟩ := h
    refine ⟨h1, ?_⟩
    rw [← hfg i (List.mem_cons_self i L)]
    exact ptr_chain_congr L _ z (fun x hx => hfg x (List.mem_cons_of_mem i hx)) h2

theorem ptr_chain_head {f : Nat → Nat} :
    ∀ (L : List Nat) (a z : Nat), ptr_chain f a L z → (L ++ [z]).head? = some a
  | [], _, _, h => by simp [ptr_chain] at h; simp [h]
  | i :: L, a, z, h => by simp [h.1]

theorem ptr_chain_tail {f : Nat → Nat} :
    ∀ (A : List Nat) (x : Nat) (B : List Nat) (a z : Nat),
      ptr_chain f a (A ++ x :: B) z → ptr_chain f (f x) B z
  | [], _, _, _, _, h => h.2
  | _ :: A, x, B, _, z, h => ptr_chain_tail A x B _ z h.2

theorem ptr_chain_read {f : Nat → Nat} (A : List Nat) (x : Nat) (B : List Nat) (a z : Nat)
    (h : ptr_chain f a (A ++ x :: B) z) : (B ++ [z]).head? = some (f x) :=
  ptr_chain_head B _ z (ptr_chain_tail A x B a z h)

theorem head_reverse_append (A : List Nat) (a : Nat) :
    (A.reverse ++ [a]).head? = (a :: A).getLast? := by
  rw [← List.reverse_cons, List.head?_reverse]

theorem getLast_cons_reverse (B : List Nat) (a : Nat) :
    (a :: B.reverse).getLast? = (B ++ [a]).head? := by
  rw [← head_reverse_append, List.reverse_reverse]

/-! ## Well-formed pools -/

theorem ext_next_none (s : fslist) (link : Nat → fslist_node) :
    ext_next s link FSLIST_NODEIDX_NONE = s.head := by
  simp [ext_next]

theorem ext_prev_none (s : fslist) (link : Nat → fslist_node) :
    ext_prev s link FSLIST_NODEIDX_NONE = s.tail := by
  simp [ext_prev]

theorem pool_wf_ne_none {s : fslist} {link : Nat → fslist_node} {L F : List Nat}
    (h : pool_wf s link L F) : ∀ i ∈ L ++ F, i ≠ FSLIST_NODEIDX_NONE := by
  intro i hi
  have h1 := h.bound i hi
  have h2 := h.cap
  simp only [FSLIST_NODEIDX_NONE]
  omega

theorem reverse_split (A : List Nat) (x : Nat) (B : List Nat) :
    (A ++ x :: B).reverse = B.reverse ++ x :: A.reverse := by
  simp

theorem ptr_chain_range (f : Nat → Nat) (cap : Nat)
    (hf : ∀ i, i < cap → f i = if i + 1 < cap then i + 1 else FSLIST_NODEIDX_NONE) :
    ∀ (n k : Nat), k + n = cap →
      ptr_chain f (if n = 0 then FSLIST_NODEIDX_NONE else k) (List.range' k n)
        FSLIST_NODEIDX_NONE := by
  intro n
  induction n with
  | zero => intro k _; simp [ptr_chain]
  | succ n ih =>
    intro k hk
    simp only [List.range'_succ, ptr_chain, Nat.succ_ne_zero, if_false, true_and]
    have h1 := ih (k + 1) (by omega)
    rw [hf k (by omega)]
    by_cases hn : n = 0
    · have : ¬ (k + 1 < cap) := by omega
      simpa [hn, this] using h1
    · have : k + 1 < cap := by omega
      simpa [hn, this] using h1

theorem pool_wf_init (s : fslist) (link : Nat → fslist_node) (buff buffSize : Nat) :
    pool_wf (fslist_init s link buff buffSize).1 (fslist_init s link buff buffSize).2.1 []
      (List.range (fslist_init s link buff buffSize).2.2) := by
  have hcap : (fslist_init s link buff buffSize).2.2 ≤ 65535 := by
    simp only [fslist_init]; exact Nat.min_le_right _ _
  generalize hc : (fslist_init s link buff buffSize).2.2 = cap at hcap ⊢
  have hcap' : (fslist_init s link buff buffSize).1.capacity = cap := hc
  have hnx : ∀ i, i < cap →
      ext_next (fslist_init s link buff buffSize).1 (fslist_init s link buff buffSize).2.1 i =
        if i + 1 < cap then i + 1 else FSLIST_NODEIDX_NONE := by
    intro i hi
    have hi0 : i ≠ FSLIST_NODEIDX_NONE := by simp only [FSLIST_NODEIDX_NONE]; omega
    have hcond : buff ≤ buff + SIZEOF_NODE * i ∧
        buff + SIZEOF_NODE * i < buff + SIZEOF_NODE * cap ∧
        (buff + SIZEOF_NODE * i - buff) % SIZEOF_NODE = 0 := by
      simp only [SIZEOF_NODE]; omega
    have hdiv : (buff + SIZEOF_NODE * i - buff) / SIZEOF_NODE = i := by
      simp only [SIZEOF_NODE]; omega
    simp only [fslist_init] at hc
    simp only [ext_next, hi0, if_false, node_at, fslist_init, hc, hcond, and_self, if_true,
      hdiv]
  refine
    { cap := by rw [hcap']; exact hcap
      bound := ?_
      nodup := ?_
      count := by rw [hcap']; simp
      fwd := rfl
      bwd := rfl
      free := ?_
      sz := rfl }
  · intro i hi
    rw [hcap']
    simpa using hi
  · simpa using List.nodup_range cap
  · have h := ptr_chain_range _ cap hnx cap 0 (by omega)
    rw [List.range_eq_range']
    have e : (fslist_init s link buff buffSize).1.nodeInactive =
        if cap = 0 then FSLIST_NODEIDX_NONE else 0 := by
      simp only [fslist_init] at hc ⊢; rw [hc]
    rw [e]; exact h

/-! ## Walking the active chain -/

theorem ext_next_of_ne (s : fslist) (link : Nat → fslist_node) (i : Nat)
    (hi : i ≠ FSLIST_NODEIDX_NONE) : ext_next s link i = (link (node_at s i)).next := by
  simp [ext_next, hi]

theorem chain_from_of_ptr_chain (s : fslist) (link : Nat → fslist_node) :
    ∀ (L : List Nat) (a : Nat), ptr_chain (ext_next s link) a L FSLIST_NODEIDX_NONE →
      (∀ i ∈ L, i ≠ FSLIST_NODEIDX_NONE) → chain_from link s a L
  | [], _, h, _ => h
  | i :: L, a, h, hne => by
    have hi := hne i (List.mem_cons_self i L)
    refine ⟨h.1, hi, ?_⟩
    rw [← ext_next_of_ne s link i hi]
    exact chain_from_of_ptr_chain s link L _ h.2 (fun j hj => hne j (List.mem_cons_of_mem i hj))
theorem node_active_from_spec (link : Nat → fslist_node) (s : fslist) (n : Nat) :
    ∀ (fuel start : Nat) (L : List Nat),
      ptr_chain (ext_next s link) start L FSLIST_NODEIDX_NONE →
      (∀ i ∈ L, i ≠ FSLIST_NODEIDX_NONE) →
      node_active_from link s n fuel start = true → ∃ x ∈ L, node_at s x = n := by
  intro fuel
  induction fuel with
  | zero => intro start L _ _ h; simp [node_active_from] at h
  | succ fuel ih =>
    intro start L h hne hact
    cases L with
    | nil =>
      have hs : start = FSLIST_NODEIDX_NONE := h
      simp [node_active_from, hs] at hact
    | cons i L =>
      obtain ⟨h1, h2⟩ := h
      subst h1
      have hi := hne start (List.mem_cons_self _ _)
      by_cases hn : node_at s start = n
      · exact ⟨start, List.mem_cons_self _ _, hn⟩
      · simp only [node_active_from, hi, hn, if_false] at hact
        rw [ext_next_of_ne s link start hi] at h2
        obtain ⟨x, hx, hxn⟩ := ih _ L h2 (fun j hj => hne j (List.mem_cons_of_mem _ hj)) hact
        exact ⟨x, List.mem_cons_of_mem _ hx, hxn⟩

theorem timer_add_full (st : timer_state) (t cb obj : Nat)
    (h : st.s.nodes.nodeInactive = FSLIST_NODEIDX_NONE) :
    timer_add st t cb obj =
      ({ st with s := { st.s with idGen := (st.s.idGen + 1) % (SIZE_MAX + 1) } }, none) := by
  simp [timer_add, fslist_insert, h]

theorem chain_from_unique (link : Nat → fslist_node) (s : fslist) :
    ∀ (L L' : List Nat) (a : Nat), chain_from link s a L → chain_from link s a L' → L = L'
  | [], [], _, _, _ => rfl
  | [], j :: _, _, h, h' => absurd (h'.1.symm.trans h) h'.2.1
  | i :: _, [], _, h, h' => absurd (h.1.symm.trans h') h.2.1
  | i :: L, j :: L', a, h, h' => by
    have e : i = j := h.1.symm.trans h'.1
    subst e
    rw [chain_from_unique link s L L' _ h.2.2 h'.2.2]

/-! ## Traversal and neighbour access -/

/-- The second example pool with two active nodes is well formed, with active chain
`[1, 0]` and an empty free chain. -/
theorem pool_full_wf : pool_wf pool_full link_full [1, 0] [] where
  cap := by decide
  bound := by decide
  nodup := by decide
  count := rfl
  fwd := by
    simp [ptr_chain, ext_next, pool_full, link_full, node_at, FSLIST_NODEIDX_NONE, SIZEOF_NODE]
  bwd := by
    simp [ptr_chain, ext_prev, pool_full, link_full, node_at, FSLIST_NODEIDX_NONE, SIZEOF_NODE]
  free := by
    simp [ptr_chain, pool_full, FSLIST_NODEIDX_NONE]
  sz := rfl

theorem fslist_next_node_at (link : Nat → fslist_node) (s : fslist) (n : Nat) :
    fslist_next link s n =
      if (link n).next = FSLIST_NODEIDX_NONE then none
      else some (node_at s (link n).next) := by
  simp only [fslist_next, node_at]
  split_ifs <;> simp_all

theorem fslist_prev_node_at (link : Nat → fslist_node) (s : fslist) (n : Nat) :
    fslist_prev link s n =
      if (link n).prev = FSLIST_NODEIDX_NONE then none
      else some (node_at s (link n).prev) := by
  simp only [fslist_prev, node_at]
  split_ifs <;> simp_all

theorem fslist_forEach_loop_fuel (link : Nat → fslist_node) (s : fslist) :
    ∀ (L : List Nat) (a fuel : Nat), chain_from link s a L → L.length ≤ fuel →
      fslist_forEach_loop link s fuel
          (if a = FSLIST_NODEIDX_NONE then none else some (node_at s a)) =
        some (L.map (fun i => fslist_data s (node_at s i)))
  | [], a, fuel, h, _ => by
    have ha : a = FSLIST_NODEIDX_NONE := h
    cases fuel <;> simp [ha, fslist_forEach_loop]
  | i :: L, a, fuel, h, hlen => by
    obtain ⟨h1, h2, h3⟩ := h
    subst h1
    cases fuel with
    | zero => simp at hlen
    | succ fuel =>
      have ih := fslist_forEach_loop_fuel link s L _ fuel h3
        (by simp only [List.length_cons] at hlen; omega)
      simp only [h2, if_false, fslist_forEach_loop, fslist_next_node_at, ih, List.map_cons,
        Option.map_some']

/-- C13: on a pool whose active chain from `head` is `L` (it ends in `NONE`) and whose
`size` is the length of `L`, `fslist_forEach` terminates (every fuel of at least `size`
iterations reaches `n == NULL`) and the number of callback invocations is `size`; and
on any pool with `size = 0` the callback is not invoked, whatever `head` holds. -/
theorem fslist_forEach_terminates (link : Nat → fslist_node) (s : fslist) (L : List Nat)
    (h : active_chain link s L) (hs : s.size = L.length) :
    (∃ calls, (∀ fuel, s.size ≤ fuel → fslist_forEach fuel link s = some calls) ∧
      calls.length = s.size) ∧
    (∀ (fuel : Nat) (link0 : Nat → fslist_node) (s0 : fslist), s0.size = 0 →
      fslist_forEach fuel link0 s0 = some []) := by
  constructor
  · refine ⟨L.map (fun i => fslist_data s (node_at s i)), ?_, by simp [hs]⟩
    intro fuel hfuel
    cases L with
    | nil => simp [fslist_forEach, hs]
    | cons i L =>
      have hne : s.head ≠ FSLIST_NODEIDX_NONE := by
        have := h.1; have := h.2.1; omega
      have hl := fslist_forEach_loop_fuel link s (i :: L) s.head fuel h (hs ▸ hfuel)
      simp only [hne, if_false] at hl
      have hsz : s.size ≠ 0 := by rw [hs]; simp
      simp only [fslist_forEach, hsz, if_false]
      exact hl
  · intro fuel link0 s0 h0
    simp [fslist_forEach, h0]

/-- Instance of C13: the full example pool, whose active chain is `[1, 0]`. -/
theorem fslist_forEach_terminates_witness :
    (active_chain link_full pool_full [1, 0] ∧ pool_full.size = [1, 0].length) ∧
    (∃ calls, (∀ fuel, pool_full.size ≤ fuel →
        fslist_forEach fuel link_full pool_full = some calls) ∧
      calls.length = pool_full.size) ∧
    (∀ (fuel : Nat) (link0 : Nat → fslist_node) (s0 : fslist), s0.size = 0 →
      fslist_forEach fuel link0 s0 = some []) :=
  have hc : active_chain link_full pool_full [1, 0] := by
    simp [active_chain, chain_from, pool_full, link_full, node_at, FSLIST_NODEIDX_NONE,
      SIZEOF_NODE]
  ⟨⟨hc, rfl⟩, fslist_forEach_terminates link_full pool_full [1, 0] hc rfl⟩

/-- In a well-formed pool the `next` link of an active slot followed by another one is
that slot, and the `prev` link of the latter is the former. -/
theorem pool_wf_adjacent {s : fslist} {link : Nat → fslist_node} {F : List Nat}
    (A : List Nat) (a b : Nat) (B : List Nat) (h : pool_wf s link (A ++ a :: b :: B) F) :
    (link (node_at s a)).next = b ∧ (link (node_at s b)).prev = a ∧
    a ≠ FSLIST_NODEIDX_NONE ∧ b ≠ FSLIST_NODEIDX_NONE := by
  have hne := pool_wf_ne_none h
  have ha : a ≠ FSLIST_NODEIDX_NONE := hne a (by simp)
  have hb : b ≠ FSLIST_NODEIDX_NONE := hne b (by simp)
  have h1 := ptr_chain_read A a (b :: B) _ _ h.fwd
  have hbw := h.bwd
  have e : A ++ a :: b :: B = (A ++ [a]) ++ b :: B := by simp
  rw [e, reverse_split] at hbw
  have h2 := ptr_chain_read B.reverse b (A ++ [a]).reverse _ _ hbw
  simp only [List.cons_append, List.head?_cons, Option.some.injEq, List.reverse_append,
    List.reverse_cons, List.reverse_nil, List.nil_append, List.singleton_append] at h1 h2
  rw [ext_next_of_ne s link a ha] at h1
  simp only [ext_prev, hb, if_false] at h2
  exact ⟨h1.symm, h2.symm, ha, hb⟩

theorem pool_wf_not_tail {s : fslist} {link : Nat → fslist_node} {L F : List Nat}
    (h : pool_wf s link L F) (a : Nat) (ha : a ∈ L) (hat : a ≠ s.tail) :
    ∃ A b B, L = A ++ a :: b :: B := by
  obtain ⟨A, B, rfl⟩ := List.append_of_mem ha
  cases B with
  | nil =>
    exfalso
    have hh := ptr_chain_head _ _ _ h.bwd
    simp only [List.reverse_append, List.reverse_cons, List.reverse_nil, List.nil_append,
      List.singleton_append, List.cons_append, List.head?_cons, Option.some.injEq] at hh
    exact hat hh
  | cons b B => exact ⟨A, b, B, rfl⟩

/-- C14: `fslist_next` returns `NULL` exactly when `n->next` is `NONE` and otherwise the
link record at index `n->next`; `fslist_prev` likewise with `n->prev`; and in a
well-formed (properly doubly linked) pool, for every active node `a` that is not the
tail, `fslist_next` gives a node and `fslist_prev` of that node is `a` again. -/
theorem fslist_next_prev :
    (∀ (link : Nat → fslist_node) (s : fslist) (n : Nat),
      (fslist_next link s n = none ↔ (link n).next = FSLIST_NODEIDX_NONE) ∧
      ((link n).next ≠ FSLIST_NODEIDX_NONE →
        fslist_next link s n = some (s.get + SIZEOF_NODE * (link n).next))) ∧
    (∀ (link : Nat → fslist_node) (s : fslist) (n : Nat),
      (fslist_prev link s n = none ↔ (link n).prev = FSLIST_NODEIDX_NONE) ∧
      ((link n).prev ≠ FSLIST_NODEIDX_NONE →
        fslist_prev link s n = some (s.get + SIZEOF_NODE * (link n).prev))) ∧
    (∀ (link : Nat → fslist_node) (s : fslist) (L F : List Nat), pool_wf s link L F →
      ∀ a ∈ L, a ≠ s.tail →
        (∃ b ∈ L, fslist_next link s (node_at s a) = some (node_at s b) ∧
          fslist_prev link s (node_at s b) = some (node_at s a)) ∧
        (fslist_next link s (node_at s a)).bind (fslist_prev link s) =
          some (node_at s a)) := by
  refine ⟨fun link s n => ?_, fun link s n => ?_, ?_⟩
  · by_cases h : (link n).next = FSLIST_NODEIDX_NONE <;> simp [fslist_next, h]
  · by_cases h : (link n).prev = FSLIST_NODEIDX_NONE <;> simp [fslist_prev, h]
  · intro link s L F hwf a ha hat
    obtain ⟨A, b, B, rfl⟩ := pool_wf_not_tail hwf a ha hat
    obtain ⟨h1, h2, h3, h4⟩ := pool_wf_adjacent A a b B hwf
    have hn : fslist_next link s (node_at s a) = some (node_at s b) := by
      rw [fslist_next_node_at, h1]; simp [h4]
    have hp : fslist_prev link s (node_at s b) = some (node_at s a) := by
      rw [fslist_prev_node_at, h2]; simp [h3]
    exact ⟨⟨b, by simp, hn, hp⟩, by rw [hn]; exact hp⟩

/-- Instance of C14: in the full example pool the node of slot 1 is active and is not
the tail; its next node is the node of slot 0, whose previous node is slot 1 again. -/
theorem fslist_next_prev_witness :
    pool_wf pool_full link_full [1, 0] [] ∧ 1 ∈ [1, 0] ∧ 1 ≠ pool_full.tail ∧
    (∃ b ∈ [1, 0], fslist_next link_full pool_full (node_at pool_full 1) =
        some (node_at pool_full b) ∧
      fslist_prev link_full pool_full (node_at pool_full b) = some (node_at pool_full 1)) ∧
    (fslist_next link_full pool_full (node_at pool_full 1)).bind
      (fslist_prev link_full pool_full) = some (node_at pool_full 1) :=
  ⟨pool_full_wf, by decide, by decide,
    fslist_next_prev.2.2 link_full pool_full [1, 0] [] pool_full_wf 1 (by decide) (by decide)⟩

/-! ## Out-of-range nodes and the payload slots -/

theorem fslist_idx_not_in_range (s : fslist) (n : Nat)
    (h : fslist_node_in_range s n = false) : fslist_idx s n = FSLIST_NODEIDX_NONE := by
  simp [fslist_idx, h]

theorem not_in_range_of_outside (s : fslist) (n : Nat)
    (h : n < s.get ∨ s.get + SIZEOF_NODE * s.capacity ≤ n) :
    fslist_node_in_range s n = false := by
  cases hb : fslist_node_in_range s n with
  | false => rfl
  | true => rw [in_range_iff] at hb; omega

/-- A multiple `d * e` of `2 ^ 64` with `0 < d < 2 ^ 16` and `0 < e` forces
`(2 ^ 16 - d) * e` to reach `2 ^ 64`. -/
theorem wrap_forces_size (d e : Nat) (hd0 : 0 < d) (hd : d < 65536) (he : 0 < e)
    (hdiv : 2 ^ 64 ∣ d * e) : 2 ^ 64 ≤ (65536 - d) * e := by
  obtain ⟨k, m, hm, rfl⟩ := Nat.exists_eq_two_pow_mul_odd hd0.ne'
  have hmpos : 0 < m := hm.pos
  have hk : k < 16 := by
    have h1 : 2 ^ k ≤ 2 ^ k * m := Nat.le_mul_of_pos_right _ hmpos
    have h2 : 2 ^ k < 2 ^ 16 := by omega
    exact (Nat.pow_lt_pow_iff_right (by norm_num)).1 h2
  have e64 : (2 : Nat) ^ 64 = 2 ^ k * 2 ^ (64 - k) := by
    rw [← pow_add]; congr 1; omega
  have e16 : (65536 : Nat) = 2 ^ k * 2 ^ (16 - k) := by
    rw [← pow_add]
    have : k + (16 - k) = 16 := by omega
    rw [this]
    norm_num
  have h3 : 2 ^ (64 - k) ∣ m * e := by
    rw [e64, Nat.mul_assoc] at hdiv
    exact Nat.dvd_of_mul_dvd_mul_left (by positivity) hdiv
  have hcop : Nat.Coprime (2 ^ (64 - k)) m :=
    Nat.Coprime.pow_left _ (Nat.coprime_two_left.2 hm)
  have h4 : 2 ^ (64 - k) ∣ e := hcop.dvd_of_dvd_mul_left h3
  have h5 : 2 ^ (64 - k) ≤ e := Nat.le_of_dvd he h4
  have h6 : m < 2 ^ (16 - k) := by
    rw [e16] at hd
    exact Nat.lt_of_mul_lt_mul_left hd
  have h7 : 2 ^ k ≤ 65536 - 2 ^ k * m := by
    rw [e16, ← Nat.mul_sub]
    exact Nat.le_mul_of_pos_right _ (by omega)
  rw [e64]
  exact Nat.mul_le_mul h7 h5

/-- C15: in a pool with `elemSize > 0` (`capacity` a 16-bit value and the byte size
`capacity * elemSize` of the payload array a `size_t` value), for a node address outside
the slot range `fslist_data` answers `data + NONE * elemSize` (the product in `size_t`),
and that address is the payload address `data + i * elemSize` of no slot
`i < capacity`. -/
theorem fslist_data_out_of_range (s : fslist) (n : Nat) (he : 0 < s.elemSize)
    (hcap : s.capacity ≤ 65535) (hfit : s.capacity * s.elemSize ≤ SIZE_MAX)
    (hout : n < s.get ∨ s.get + SIZEOF_NODE * s.capacity ≤ n) :
    fslist_data s n = s.data + (FSLIST_NODEIDX_NONE * s.elemSize) % (SIZE_MAX + 1) ∧
    (FSLIST_NODEIDX_NONE * s.elemSize ≤ SIZE_MAX →
      fslist_data s n = s.data + FSLIST_NODEIDX_NONE * s.elemSize) ∧
    ∀ i, i < s.capacity → fslist_data s n ≠ s.data + i * s.elemSize := by
  have hd : fslist_data s n = s.data + (FSLIST_NODEIDX_NONE * s.elemSize) % (SIZE_MAX + 1) := by
    simp only [fslist_data, fslist_idx_not_in_range s n (not_in_range_of_outside s n hout)]
  refine ⟨hd, fun hno => ?_, fun i hi heq => ?_⟩
  · rw [hd, Nat.mod_eq_of_lt (by omega)]
  · rw [hd] at heq
    have hM : SIZE_MAX + 1 = 2 ^ 64 := by norm_num [SIZE_MAX]
    have h1 : (FSLIST_NODEIDX_NONE * s.elemSize) % (SIZE_MAX + 1) = i * s.elemSize := by omega
    have hie : (i + 1) * s.elemSize ≤ s.capacity * s.elemSize :=
      Nat.mul_le_mul_right _ (by omega)
    have hlt : i * s.elemSize < SIZE_MAX + 1 := by
      have : i * s.elemSize ≤ (i + 1) * s.elemSize := Nat.mul_le_mul_right _ (by omega)
      omega
    have hle : i * s.elemSize ≤ FSLIST_NODEIDX_NONE * s.elemSize :=
      Nat.mul_le_mul_right _ (by simp only [FSLIST_NODEIDX_NONE]; omega)
    have hmod : i * s.elemSize ≡ FSLIST_NODEIDX_NONE * s.elemSize [MOD (SIZE_MAX + 1)] := by
      unfold Nat.ModEq
      rw [h1, Nat.mod_eq_of_lt hlt]
    have hdvd := (Nat.modEq_iff_dvd' hle).1 hmod
    rw [← Nat.sub_mul, hM] at hdvd
    have hw := wrap_forces_size (FSLIST_NODEIDX_NONE - i) s.elemSize
      (by simp only [FSLIST_NODEIDX_NONE]; omega) (by simp only [FSLIST_NODEIDX_NONE]; omega)
      he hdvd
    have e2 : 65536 - (FSLIST_NODEIDX_NONE - i) = i + 1 := by
      simp only [FSLIST_NODEIDX_NONE]; omega
    rw [e2] at hw
    omega

/-- Instance of C15: the example pool and the address one past its last link record. -/
theorem fslist_data_out_of_range_witness :
    (0 < pool_one.elemSize ∧ pool_one.capacity ≤ 65535 ∧
      pool_one.capacity * pool_one.elemSize ≤ SIZE_MAX ∧
      (1016 < pool_one.get ∨ pool_one.get + SIZEOF_NODE * pool_one.capacity ≤ 1016)) ∧
    fslist_data pool_one 1016 =
      pool_one.data + (FSLIST_NODEIDX_NONE * pool_one.elemSize) % (SIZE_MAX + 1) ∧
    (FSLIST_NODEIDX_NONE * pool_one.elemSize ≤ SIZE_MAX →
      fslist_data pool_one 1016 = pool_one.data + FSLIST_NODEIDX_NONE * pool_one.elemSize) ∧
    ∀ i, i < pool_one.capacity →
      fslist_data pool_one 1016 ≠ pool_one.data + i * pool_one.elemSize :=
  ⟨⟨by decide, by decide, by decide, Or.inr (by decide)⟩,
    fslist_data_out_of_range pool_one 1016 (by decide) (by decide) (by decide)
      (Or.inr (by decide))⟩

/-! ## Exhaustion -/

theorem pool_wf_full {s : fslist} {link : Nat → fslist_node} {L F : List Nat}
    (h : pool_wf s link L F) (hfull : s.size = s.capacity) :
    F = [] ∧ s.nodeInactive = FSLIST_NODEIDX_NONE := by
  have hF : F = [] := by
    have h1 := h.count
    have h2 := h.sz
    exact List.length_eq_zero.1 (by omega)
  subst hF
  exact ⟨rfl, h.free⟩

/-- C12: on a well-formed queue holding `capacity` timers (`size = capacity`, so the
free chain is empty), `timer_add` returns the exhaustion signal and leaves the pool
object (`head`, `tail`, `nodeInactive`, `size`, ...), every link record and every
payload record unchanged. -/
theorem timer_add_exhausted (st : timer_state) (L F : List Nat) (t cb obj : Nat)
    (hwf : pool_wf st.s.nodes st.link L F) (hfull : st.s.nodes.size = st.s.nodes.capacity) :
    F = [] ∧ st.s.nodes.nodeInactive = FSLIST_NODEIDX_NONE ∧
    (timer_add st t cb obj).2 = none ∧
    (timer_add st t cb obj).1.s.nodes = st.s.nodes ∧
    (timer_add st t cb obj).1.link = st.link ∧
    (timer_add st t cb obj).1.info = st.info := by
  obtain ⟨hF, hni⟩ := pool_wf_full hwf hfull
  rw [timer_add_full st t cb obj hni]
  exact ⟨hF, hni, rfl, rfl, rfl, rfl⟩

/-- Instance of C12: the full example queue, two timers in two slots. -/
theorem timer_add_exhausted_witness :
    (pool_wf state_full.s.nodes state_full.link [1, 0] [] ∧
      state_full.s.nodes.size = state_full.s.nodes.capacity) ∧
    ([] : List Nat) = [] ∧ state_full.s.nodes.nodeInactive = FSLIST_NODEIDX_NONE ∧
    (timer_add state_full 75 7 8).2 = none ∧
    (timer_add state_full 75 7 8).1.s.nodes = state_full.s.nodes ∧
    (timer_add state_full 75 7 8).1.link = state_full.link ∧
    (timer_add state_full 75 7 8).1.info = state_full.info :=
  ⟨⟨pool_full_wf, rfl⟩, timer_add_exhausted state_full [1, 0] [] 75 7 8 pool_full_wf rfl⟩

/-! ## The peek on a pending head -/

/-- In a well-formed pool whose payload array has a `size_t` byte size, with a pending
timer and the head not at slot 0, `timer_nextTrigger` returns the trigger time stored
in the payload slot of the head. -/
theorem timer_nextTrigger_head (st : timer_state) (L F : List Nat)
    (hwf : pool_wf st.s.nodes st.link L F)
    (hfit : st.s.nodes.capacity * st.s.nodes.elemSize ≤ SIZE_MAX)
    (h0 : st.s.nodes.head ≠ 0) (hs : st.s.nodes.size ≠ 0) :
    L.head? = some st.s.nodes.head ∧
    timer_nextTrigger st.info st.s =
      (st.info (slot_data st.s.nodes st.s.nodes.head)).triggerTime := by
  cases L with
  | nil => exact absurd hwf.sz hs
  | cons x B =>
    have hx : st.s.nodes.head = x := hwf.fwd.1
    have hb : x < st.s.nodes.capacity := hwf.bound x (by simp)
    have hle : x * st.s.nodes.elemSize ≤ st.s.nodes.capacity * st.s.nodes.elemSize :=
      Nat.mul_le_mul_right _ (le_of_lt hb)
    have hd := fslist_data_node_at st.s.nodes x (by omega) hb hwf.cap (by omega)
    refine ⟨by rw [hx]; rfl, ?_⟩
    simp only [timer_nextTrigger, hs, if_false]
    rw [hx]
    exact congrArg (fun a => (st.info a).triggerTime) hd

/-- C6 (amended): on a well-formed timer queue whose head is not slot 0 and whose head
timer is not due at `(size_t)-1`, `timer_nextTrigger` returns the empty sentinel if and
only if no timer is pending (`size = 0`). -/
theorem timer_nextTrigger_sentinel (st : timer_state) (L F : List Nat)
    (hwf : pool_wf st.s.nodes st.link L F)
    (hfit : st.s.nodes.capacity * st.s.nodes.elemSize ≤ SIZE_MAX)
    (h0 : st.s.nodes.head ≠ 0)
    (hmax : ∀ i, L.head? = some i →
      (st.info (slot_data st.s.nodes i)).triggerTime ≠ SIZE_MAX) :
    timer_nextTrigger st.info st.s = SIZE_MAX ↔ st.s.nodes.size = 0 := by
  constructor
  · intro h
    by_contra hs
    obtain ⟨hh, hv⟩ := timer_nextTrigger_head st L F hwf hfit h0 hs
    exact hmax _ hh (hv ▸ h)
  · intro hs
    simp [timer_nextTrigger, hs]

/-- Instance of C6 (amended): the full example queue, head at slot 1 and due at 50. -/
theorem timer_nextTrigger_sentinel_witness :
    (pool_wf state_full.s.nodes state_full.link [1, 0] [] ∧
      state_full.s.nodes.capacity * state_full.s.nodes.elemSize ≤ SIZE_MAX ∧
      state_full.s.nodes.head ≠ 0 ∧
      ∀ i, [1, 0].head? = some i →
        (state_full.info (slot_data state_full.s.nodes i)).triggerTime ≠ SIZE_MAX) ∧
    (timer_nextTrigger state_full.info state_full.s = SIZE_MAX ↔
      state_full.s.nodes.size = 0) :=
  ⟨⟨pool_full_wf, by decide, by decide, by decide⟩,
    timer_nextTrigger_sentinel state_full [1, 0] [] pool_full_wf (by decide) (by decide)
      (by decide)⟩

/-! ## Insertion before slot 0 and the firing of due timers -/

/-- When no node is inserted before the node of slot 0 the modelled `timer_add` keeps
the chain whole and sorted: adding at times 50, 100 and 75 gives the chain slot 0,
slot 2, slot 1 with trigger times 50, 75, 100, and `timer_update` at time 80 then fires
the timers due at 50 and 75 in that order and leaves the one due at 100. -/
theorem timer_add_between :
    active_chain state_order.link state_order.s.nodes [0, 2, 1] ∧
    state_order.s.nodes.size = 3 ∧
    [0, 2, 1].map (trigger_of state_order) = [50, 75, 100] ∧
    (timer_update state_order 80).2 = [(1, 50), (1, 75)] ∧
    active_chain (timer_update state_order 80).1.link (timer_update state_order 80).1.s.nodes
      [1] ∧
    (timer_update state_order 80).1.s.nodes.size = 1 := by
  refine ⟨?_, by decide, by decide, by decide, ?_, by decide⟩
  · simp only [active_chain, chain_from]; decide
  · simp only [active_chain, chain_from]; decide

